import Mathlib

/-!
Verification development for the Cloak client core: the `multiplex`
buffered pipe (`bufferedPipe` and its methods) and the direct-TLS
client handshake (`TLS.go`).

Strings and byte slices are modelled as `List Nat` (Go `[]byte` /
`string` are byte sequences here; all relevant strings are ASCII).
Go errors are modelled by the `GoError` type; a Go `(T, error)` return
is a Lean sum or an outcome inductive.  The pipe's methods hold a single
lock for the whole body except while waiting on the condition variable,
so each pass of a method's retry loop is an atomic step on the pipe
state; we embed one loop iteration as a pure step function on the state
plus the current time, with a `wait` outcome standing for
`rwCond.Wait()` (block and re-loop).  Timer arming via `time.AfterFunc`
only broadcasts (an advisory wake-up) and changes no pipe state, so it
has no footprint in the state model.
-/

set_option autoImplicit false

namespace Cloak

/-- Errors returned by the modelled code: `io.EOF`, the package's
`ErrTimeout`, `io.ErrClosedPipe`, and opaque transport/sink errors
(`other`). -/
inductive GoError where
  | eof
  | timeout
  | closedPipe
  | other (code : Nat)
deriving DecidableEq, Repr

/-- Go `copy(dst, src)`: overwrites the first `min |dst| |src|` elements
of `dst` with those of `src`, leaving the rest of `dst` unchanged. -/
def goCopy (dst src : List Nat) : List Nat :=
  src.take dst.length ++ dst.drop src.length

/-- Go slice expression `l[a:b]` (requires `a ≤ b ≤ len l` in Go; on
smaller lists this total model just truncates). -/
def goSlice (l : List Nat) (a b : Nat) : List Nat :=
  (l.drop a).take (b - a)

/-! ## The buffered pipe (`multiplex.bufferedPipe`) -/

/-- `const BUF_SIZE_LIMIT = 1 << 20 * 500` (Go `<<` and `*` share
precedence, left-associative: `(1 << 20) * 500` = 500 MiB). -/
def BUF_SIZE_LIMIT : Nat := (1 <<< 20) * 500

/-- State of a `bufferedPipe`.  `buf` is the byte queue (`bytes.Buffer`:
`Write` appends, `Read` consumes from the front; the nil-until-first-use
optimization of the Go code is invisible at this level since a nil
buffer reads as empty).  `rDeadline` is the absolute read deadline,
`none` for the zero `time.Time` (`IsZero`).  `wtTimeout` is the
`WriteTo` rolling idle timeout, `0` = disabled.  Time instants and
durations are integers. -/
structure BufferedPipe where
  buf : List Nat
  closed : Bool
  rDeadline : Option Int
  wtTimeout : Int
deriving DecidableEq, Repr

/-- `NewBufferedPipe()`: empty, open, no deadline, no timeout. -/
def NewBufferedPipe : BufferedPipe :=
  { buf := [], closed := false, rDeadline := none, wtTimeout := 0 }

/-- The deadline test of `Read`/`WriteTo`:
`!p.rDeadline.IsZero() && time.Until(p.rDeadline) <= 0`. -/
def deadlinePassed (p : BufferedPipe) (now : Int) : Bool :=
  match p.rDeadline with
  | none => false
  | some t => decide (t - now ≤ 0)

/-- Outcome of one pass of the `Read` retry loop: return `(0, io.EOF)`,
return `(0, ErrTimeout)`, break out and consume bytes from the buffer,
or `rwCond.Wait()` and re-loop. -/
inductive ReadOutcome where
  | retEOF
  | retTimeout
  | readData (bytes : List Nat)
  | wait
deriving DecidableEq, Repr

/-- One pass of `bufferedPipe.Read`'s loop body (lines 44–62), followed
— when the loop breaks — by the `p.buf.Read(target)` call that moves
`min targetLen |buf|` bytes out of the front of the buffer.  Checks are
in source order: closed-and-empty first, then the deadline, then
non-empty buffer, else wait. -/
def readStep (p : BufferedPipe) (now : Int) (targetLen : Nat) :
    ReadOutcome × BufferedPipe :=
  if p.closed ∧ p.buf = [] then (.retEOF, p)
  else if deadlinePassed p now then (.retTimeout, p)
  else if p.buf ≠ [] then
    (.readData (p.buf.take targetLen), { p with buf := p.buf.drop targetLen })
  else (.wait, p)

/-- Outcome of one pass of the `Write` retry loop: return
`(0, io.ErrClosedPipe)`, break out and append (returning the byte
count), or `rwCond.Wait()` (backpressure) and re-loop. -/
inductive WriteOutcome where
  | retClosed
  | wrote (n : Nat)
  | wait
deriving DecidableEq, Repr

/-- One pass of `bufferedPipe.Write`'s loop body (lines 123–140),
followed — when the loop breaks — by `p.buf.Write(input)`, which appends
the whole input and returns its length with a nil error. -/
def writeStep (p : BufferedPipe) (input : List Nat) :
    WriteOutcome × BufferedPipe :=
  if p.closed then (.retClosed, p)
  else if p.buf.length ≤ BUF_SIZE_LIMIT then
    (.wrote input.length, { p with buf := p.buf ++ input })
  else (.wait, p)

/-- Outcome of one pass of the `WriteTo` loop: return `(n, io.EOF)`,
return `(n, ErrTimeout)`, return the sink's error, or wait and re-loop
(after draining the whole buffer into the sink when it was non-empty). -/
inductive WriteToOutcome where
  | retEOF
  | retTimeout
  | retErr (e : GoError)
  | wait
deriving DecidableEq, Repr

/-- One pass of `bufferedPipe.WriteTo`'s loop body (lines 78–112).
Checks in source order: closed-and-empty, deadline, then the rolling
timeout re-arms the read deadline to `now + wtTimeout`, then a
non-empty buffer is drained entirely into the sink by
`p.buf.WriteTo(w)` (whose error, if any, is returned); in every
non-returning case the pass ends in `rwCond.Wait()`.  The sink's
behaviour on this pass is `sinkErr` (`none` = all bytes accepted).
Returns the outcome, the new state, and the bytes drained this pass. -/
def writeToStep (p : BufferedPipe) (now : Int) (sinkErr : Option GoError) :
    WriteToOutcome × BufferedPipe × List Nat :=
  if p.closed ∧ p.buf = [] then (.retEOF, p, [])
  else if deadlinePassed p now then (.retTimeout, p, [])
  else
    let p1 := if p.wtTimeout ≠ 0
      then { p with rDeadline := some (now + p.wtTimeout) } else p
    if p1.buf ≠ [] then
      match sinkErr with
      | some e => (.retErr e, { p1 with buf := [] }, p1.buf)
      | none => (.wait, { p1 with buf := [] }, p1.buf)
    else (.wait, p1, [])

/-- `bufferedPipe.Close` (lines 143–152): set `closed`, broadcast,
return nil. -/
def closePipe (p : BufferedPipe) : Option GoError × BufferedPipe :=
  (none, { p with closed := true })

/-- `bufferedPipe.SetReadDeadline` (lines 154–160). -/
def setReadDeadline (p : BufferedPipe) (t : Option Int) : BufferedPipe :=
  { p with rDeadline := t }

/-- `bufferedPipe.SetWriteToTimeout` (lines 162–168). -/
def setWriteToTimeout (p : BufferedPipe) (d : Int) : BufferedPipe :=
  { p with wtTimeout := d }

/-- A pipe whose buffer sits exactly at the soft ceiling. -/
def atLimitPipe : BufferedPipe :=
  { buf := List.replicate BUF_SIZE_LIMIT 0, closed := false,
    rDeadline := none, wtTimeout := 0 }

/-- A pipe whose buffer is strictly above the soft ceiling, so that a
`Write` on it blocks (backpressure). -/
def overfullPipe : BufferedPipe :=
  { buf := List.replicate (BUF_SIZE_LIMIT + 1) 0, closed := false,
    rDeadline := none, wtTimeout := 0 }

/-! ## The direct-TLS client (`internal/client/TLS.go`) -/

/-- ASCII lowering of one byte, folding `A`–`Z` onto `a`–`z`. -/
def toLowerByte (b : Nat) : Nat :=
  if 65 ≤ b ∧ b ≤ 90 then b + 32 else b

/-- Model of Go `strings.EqualFold` on the byte strings involved here:
equality after ASCII case folding.  (Go folds by Unicode simple case
folding; for comparisons against the literal `"random"` — whose letters
`r a n d o m` each have a two-element fold class `{x, X}` — ASCII
folding decides exactly the same equality.) -/
def equalFold (s t : List Nat) : Bool :=
  s.map toLowerByte == t.map toLowerByte

/-- The byte string `"random"`. -/
def randomLiteral : List Nat := [114, 97, 110, 100, 111, 109]

/-- `var topLevelDomains = []string{"com", "net", "org", "it", "fr",
"me", "ru", "cn", "es", "tr", "top", "xyz", "info"}` as byte strings. -/
def topLevelDomains : List (List Nat) :=
  [[99, 111, 109], [110, 101, 116], [111, 114, 103], [105, 116],
   [102, 114], [109, 101], [114, 117], [99, 110], [101, 115],
   [116, 114], [116, 111, 112], [120, 121, 122], [105, 110, 102, 111]]

/-- `randInt(n)`: both sources (`cryptoRand.Int` and the seeded
`rand.Intn` fallback) return a uniformly drawn integer in `[0, n)`; the
draw is modelled by an oracle value reduced mod `n`. -/
def randInt (oracle n : Nat) : Nat := oracle % n

/-- `randItem(list)`: `list[randInt(len(list))]`. -/
def randItem (oracle : Nat) (list : List (List Nat)) : List Nat :=
  list.getD (randInt oracle list.length) []

/-- `randomServerName()`: a label of `3 + randInt(10)` bytes, each
`'a' + randInt(26)` (`97 + …`), then `'.'` (byte 46) and a top-level
domain picked by `randItem`.  The oracles stand for the successive
random draws: one for the size, one per character, one for the TLD. -/
def randomServerName (sizeOracle : Nat) (charOracle : Nat → Nat)
    (tldOracle : Nat) : List Nat :=
  (List.range (3 + randInt sizeOracle 10)).map
      (fun i => 97 + randInt (charOracle i) 26)
    ++ 46 :: randItem tldOracle topLevelDomains

/-- The override fields handed to `buildClientHello`
(`clientHelloFields`). -/
structure ClientHelloFields where
  random : List Nat
  sessionId : List Nat
  x25519KeyShare : List Nat
  serverName : List Nat
deriving DecidableEq, Repr

/-- `AuthInfo` as the handshake uses it: only `MockDomain` matters
here. -/
structure AuthInfo where
  mockDomain : List Nat
deriving DecidableEq, Repr

/-- The authentication payload produced by
`makeAuthenticationPayload`: a 32-byte marshalled ephemeral public key
and 64 bytes of ciphertext-with-tag. -/
structure AuthPayload where
  randPubKey : List Nat
  ciphertextWithTag : List Nat
deriving DecidableEq, Repr

/-- `Handshake` lines 134–143: build the `clientHelloFields` from the
payload and `authInfo.MockDomain`, substituting a generated random
server name when `MockDomain` is case-insensitively `"random"`.
`generatedName` is the name `randomServerName()` would return. -/
def handshakeFields (payload : AuthPayload) (authInfo : AuthInfo)
    (generatedName : List Nat) : ClientHelloFields :=
  let fields : ClientHelloFields :=
    { random := payload.randPubKey
      sessionId := goSlice payload.ciphertextWithTag 0 32
      x25519KeyShare := goSlice payload.ciphertextWithTag 32 64
      serverName := authInfo.mockDomain }
  if equalFold fields.serverName randomLiteral then
    { fields with serverName := generatedName }
  else fields

/-- `Handshake` line 165: `encrypted := append(buf[6:38], buf[84:116]...)`. -/
def extractEncrypted (buf : List Nat) : List Nat :=
  goSlice buf 6 38 ++ goSlice buf 84 116

/-- `Handshake` line 166: `nonce := encrypted[0:12]`. -/
def extractNonce (buf : List Nat) : List Nat :=
  goSlice (extractEncrypted buf) 0 12

/-- `Handshake` line 167: `ciphertextWithTag := encrypted[12:60]`. -/
def extractCiphertextWithTag (buf : List Nat) : List Nat :=
  goSlice (extractEncrypted buf) 12 60

/-- `Handshake` lines 158–182, the receive half: the first `tls.Read`
fills the 1024-byte buffer; the fixed ranges are extracted and fed to
`common.AESGCMDecrypt` (abstracted as `decrypt nonce ct`, since the AEAD
itself is outside this repository's client package); on success the key
is copied into the zeroed 32-byte `sessionKey` array, then exactly two
further `tls.Read`s must succeed before `(sessionKey, nil)` is
returned.  `r0, r1, r2` are the outcomes of the three successive reads
(`.ok buf` = the buffer contents after a successful read). -/
def handshakeRecv (decrypt : List Nat → List Nat → Except GoError (List Nat))
    (r0 r1 r2 : Except GoError (List Nat)) : Except GoError (List Nat) :=
  match r0 with
  | .error e => .error e
  | .ok buf =>
    match decrypt (extractNonce buf) (extractCiphertextWithTag buf) with
    | .error e => .error e
    | .ok sessionKeySlice =>
      match r1 with
      | .error e => .error e
      | .ok _ =>
        match r2 with
        | .error e => .error e
        | .ok _ => .ok (goCopy (List.replicate 32 0) sessionKeySlice)

/-- `utls.X25519` = `0x001d`. -/
def X25519 : Nat := 29

/-- One key share entry (`utls.KeyShare`): a named group and its data. -/
structure KeyShare where
  group : Nat
  data : List Nat
deriving DecidableEq, Repr

/-- One entry of `uclient.Extensions`: either a
`*utls.KeyShareExtension` (with its `KeyShares` list) or any other
extension type (tagged opaquely). -/
inductive TLSExtension where
  | keyShare (shares : List KeyShare)
  | other (tag : Nat)
deriving DecidableEq, Repr

/-- Whether an extension is a `*utls.KeyShareExtension` (the type
assertion's success). -/
def TLSExtension.isKeyShare : TLSExtension → Bool
  | .keyShare _ => true
  | .other _ => false

/-- The inner loop of `buildClientHello` lines 112–116: scan `shares`
from position `j`, replacing the accumulator by the position of every
entry whose group is X25519. -/
def lastX25519Aux (j acc : Nat) : List KeyShare → Nat
  | [] => acc
  | s :: rest => lastX25519Aux (j + 1) (if s.group = X25519 then j else acc) rest

/-- The outer loop of `buildClientHello` lines 105–118: scan the
extensions from position `i` with accumulator
`(extIndex, keyShareIndex)` (both start at 0); each
`KeyShareExtension` overwrites `extIndex` with its position and runs
the inner scan on `keyShareIndex`. -/
def scanKeyShareAux (i : Nat) (acc : Nat × Nat) :
    List TLSExtension → Nat × Nat
  | [] => acc
  | .keyShare shares :: rest =>
      scanKeyShareAux (i + 1) (i, lastX25519Aux 0 acc.2 shares) rest
  | .other _ :: rest => scanKeyShareAux (i + 1) acc rest

/-- The complete scan: `var extIndex int; var keyShareIndex int` then
the double loop. -/
def scanKeyShare (exts : List TLSExtension) : Nat × Nat :=
  scanKeyShareAux 0 (0, 0) exts

/-- `buildClientHello` line 119:
`copy(uclient.Extensions[extIndex].(*utls.KeyShareExtension).KeyShares[keyShareIndex].Data, fields.x25519KeyShare)`.
A failed type assertion or an out-of-range index is a Go panic,
modelled as `none`. -/
def overwriteKeyShare (exts : List TLSExtension) (newData : List Nat) :
    Option (List TLSExtension) :=
  let scanned := scanKeyShare exts
  match exts.get? scanned.1 with
  | some (.keyShare shares) =>
    match shares.get? scanned.2 with
    | some s =>
      some (exts.set scanned.1
        (.keyShare (shares.set scanned.2 { s with data := goCopy s.data newData })))
    | none => none
  | _ => none

/-- Position of the last entry of a key-share list whose group is
X25519 (transparent recursion: an occurrence in the tail wins over the
head). -/
def lastIdxX25519 : List KeyShare → Option Nat
  | [] => none
  | s :: rest =>
    match lastIdxX25519 rest with
    | some j => some (j + 1)
    | none => if s.group = X25519 then some 0 else none

/-- C2: after `Close()`, a Read on an empty pipe returns `io.EOF`; any
Write returns `io.ErrClosedPipe`; a Write that was blocked on
backpressure, when woken, also returns `io.ErrClosedPipe`; and `Close`
returns nil and is idempotent. -/
theorem close_semantics (p : BufferedPipe) (input : List Nat) (now : Int)
    (targetLen : Nat) :
    (closePipe p).1 = none ∧
    (closePipe p).2.closed = true ∧
    ((closePipe p).2.buf = [] →
      readStep (closePipe p).2 now targetLen = (.retEOF, (closePipe p).2)) ∧
    writeStep (closePipe p).2 input = (.retClosed, (closePipe p).2) ∧
    (writeStep p input = (.wait, p) →
      writeStep (closePipe p).2 input = (.retClosed, (closePipe p).2)) ∧
    closePipe (closePipe p).2 = (none, (closePipe p).2) := by
  refine ⟨rfl, rfl, fun h => ?_, ?_, fun _ => ?_, rfl⟩
  · have hb : p.buf = [] := h
    simp [readStep, closePipe, hb]
  · simp [writeStep, closePipe]
  · simp [writeStep, closePipe]

/-- Witness for C2: on a pipe whose buffer is above the ceiling a Write
indeed blocks (so the blocked-Write hypothesis is satisfiable), and the
close-semantics theorem instantiates there. -/
theorem close_semantics_witness :
    writeStep overfullPipe [5] = (.wait, overfullPipe) ∧
    ((closePipe overfullPipe).1 = none ∧
     (closePipe overfullPipe).2.closed = true ∧
     ((closePipe overfullPipe).2.buf = [] →
       readStep (closePipe overfullPipe).2 0 4 =
         (.retEOF, (closePipe overfullPipe).2)) ∧
     writeStep (closePipe overfullPipe).2 [5] =
       (.retClosed, (closePipe overfullPipe).2) ∧
     (writeStep overfullPipe [5] = (.wait, overfullPipe) →
       writeStep (closePipe overfullPipe).2 [5] =
         (.retClosed, (closePipe overfullPipe).2)) ∧
     closePipe (closePipe overfullPipe).2 =
       (none, (closePipe overfullPipe).2)) :=
  ⟨by simp [writeStep, overfullPipe], close_semantics overfullPipe [5] 0 4⟩

/-- C3: `Write` fails immediately with `io.ErrClosedPipe` when the pipe
is closed; appends the whole input and returns its length (no error)
when the buffer length is within `BUF_SIZE_LIMIT`; otherwise waits and
re-checks; and it never returns the closed-pipe error unless the pipe
is closed — the ceiling alone never produces an error. -/
theorem write_semantics (p : BufferedPipe) (input : List Nat) :
    (p.closed = true → writeStep p input = (.retClosed, p)) ∧
    (p.closed = false → p.buf.length ≤ BUF_SIZE_LIMIT →
      writeStep p input = (.wrote input.length, { p with buf := p.buf ++ input })) ∧
    (p.closed = false → BUF_SIZE_LIMIT < p.buf.length →
      writeStep p input = (.wait, p)) ∧
    ((writeStep p input).1 = .retClosed → p.closed = true) := by
  refine ⟨fun h => ?_, fun h hl => ?_, fun h hl => ?_, fun h => ?_⟩
  · simp [writeStep, h]
  · simp [writeStep, h, hl]
  · simp [writeStep, h, Nat.not_le.mpr hl]
  · by_cases hc : p.closed = true
    · exact hc
    · simp only [writeStep, Bool.not_eq_true] at *
      simp only [hc, if_false] at h
      by_cases hl : p.buf.length ≤ BUF_SIZE_LIMIT <;> simp [hl] at h

/-- Witness for C3: instantiated on the fresh pipe and a 2-byte input;
the append branch is taken and returns the input length. -/
theorem write_semantics_witness :
    NewBufferedPipe.closed = false ∧
    NewBufferedPipe.buf.length ≤ BUF_SIZE_LIMIT ∧
    writeStep NewBufferedPipe [7, 8] =
      (.wrote 2, { NewBufferedPipe with buf := NewBufferedPipe.buf ++ [7, 8] }) :=
  ⟨rfl, by decide, (write_semantics NewBufferedPipe [7, 8]).2.1 rfl (by decide)⟩

/-- C4: on a pipe that is not closed-and-drained — a Read with a set,
already-passed deadline returns `ErrTimeout` and consumes nothing; with
a zero deadline no timeout is ever returned; with a future deadline a
Read on an empty open pipe waits, and then returns data if data arrives
before the deadline or `ErrTimeout` once the deadline has elapsed. -/
theorem read_deadline_semantics (p : BufferedPipe) (now : Int) (targetLen : Nat)
    (hnd : ¬(p.closed = true ∧ p.buf = [])) :
    (deadlinePassed p now = true → readStep p now targetLen = (.retTimeout, p)) ∧
    (p.rDeadline = none → (readStep p now targetLen).1 ≠ .retTimeout) ∧
    (∀ t, p.rDeadline = some t → now < t → p.closed = false → p.buf = [] →
      readStep p now targetLen = (.wait, p)) ∧
    (∀ t, p.rDeadline = some t → now < t → p.buf ≠ [] →
      readStep p now targetLen =
        (.readData (p.buf.take targetLen), { p with buf := p.buf.drop targetLen })) ∧
    (∀ t later, p.rDeadline = some t → t ≤ later → p.closed = false →
      p.buf = [] → readStep p later targetLen = (.retTimeout, p)) := by
  refine ⟨fun hd => ?_, fun hz => ?_, fun t ht hlt hc hb => ?_,
    fun t ht hlt hb => ?_, fun t later ht hle hc hb => ?_⟩
  · simp [readStep, hnd, hd]
  · by_cases hb : p.buf = []
    · simp only [readStep, deadlinePassed, hz, hb]
      split <;> simp
    · simp [readStep, deadlinePassed, hz, hb]
  · have hd : deadlinePassed p now = false := by
      simp [deadlinePassed, ht]; omega
    simp [readStep, hc, hb, hd]
  · have hd : deadlinePassed p now = false := by
      simp [deadlinePassed, ht]; omega
    simp [readStep, hnd, hb, hd]
  · have hd : deadlinePassed p later = true := by
      simp [deadlinePassed, ht]; omega
    simp [readStep, hc, hb, hd]

/-- Witness for C4: an open pipe holding bytes with deadline 5 at time
10 returns `ErrTimeout` and is left unchanged. -/
theorem read_deadline_semantics_witness :
    readStep ⟨[1, 2, 3], false, some 5, 0⟩ 10 2 =
      (.retTimeout, ⟨[1, 2, 3], false, some 5, 0⟩) :=
  (read_deadline_semantics ⟨[1, 2, 3], false, some 5, 0⟩ 10 2 (by decide)).1
    (by decide)

/-- C9: both `Read` and `WriteTo` test closed-and-empty before the
deadline, so on a closed, drained pipe they return `io.EOF` (with
nothing read/written) even when a read deadline is set and already
passed, and never `ErrTimeout` in that state. -/
theorem eof_before_timeout (p : BufferedPipe) (now : Int) (targetLen : Nat)
    (sinkErr : Option GoError) (hc : p.closed = true) (hb : p.buf = [])
    (_hd : deadlinePassed p now = true) :
    readStep p now targetLen = (.retEOF, p) ∧
    writeToStep p now sinkErr = (.retEOF, p, []) ∧
    (readStep p now targetLen).1 ≠ .retTimeout ∧
    (writeToStep p now sinkErr).1 ≠ .retTimeout := by
  refine ⟨?_, ?_, ?_, ?_⟩ <;> simp [readStep, writeToStep, hc, hb]

/-- Witness for C9: a closed empty pipe with deadline 3 at time 10
returns `io.EOF` from a Read step. -/
theorem eof_before_timeout_witness :
    readStep ⟨[], true, some 3, 0⟩ 10 8 = (.retEOF, ⟨[], true, some 3, 0⟩) :=
  (eof_before_timeout ⟨[], true, some 3, 0⟩ 10 8 none rfl rfl (by decide)).1

/-- C10: the ceiling is soft — when the observed buffer length is at
most `BUF_SIZE_LIMIT`, `Write` appends the whole input in one step, so
the post-write length is exactly the old length plus the input length,
bounded by `BUF_SIZE_LIMIT + |input|`; and on a pipe sitting exactly at
the limit a 1-byte write leaves the buffer one byte above the limit. -/
theorem write_overshoot (p : BufferedPipe) (input : List Nat)
    (hc : p.closed = false) (hl : p.buf.length ≤ BUF_SIZE_LIMIT) :
    ((writeStep p input).2.buf.length = p.buf.length + input.length ∧
     (writeStep p input).2.buf.length ≤ BUF_SIZE_LIMIT + input.length) ∧
    ((writeStep atLimitPipe [0]).2.buf.length = BUF_SIZE_LIMIT + 1 ∧
     BUF_SIZE_LIMIT < (writeStep atLimitPipe [0]).2.buf.length) := by
  have hstep : writeStep p input = (.wrote input.length, { p with buf := p.buf ++ input }) := by
    simp [writeStep, hc, hl]
  have hc0 : atLimitPipe.closed = false := rfl
  have hl0 : atLimitPipe.buf.length ≤ BUF_SIZE_LIMIT := by
    simp [atLimitPipe]
  have hstep0 : writeStep atLimitPipe [0] =
      (.wrote 1, { atLimitPipe with buf := atLimitPipe.buf ++ [0] }) := by
    simp [writeStep, hc0, hl0]
  have hat : (writeStep atLimitPipe [0]).2.buf.length = BUF_SIZE_LIMIT + 1 := by
    rw [hstep0]
    simp [atLimitPipe]
  refine ⟨⟨?_, ?_⟩, hat, by omega⟩
  · simp [hstep]
  · simp [hstep]; omega

/-- Witness for C10: instantiated on the fresh pipe and a 3-byte input. -/
theorem write_overshoot_witness :
    ((writeStep NewBufferedPipe [1, 2, 3]).2.buf.length =
        NewBufferedPipe.buf.length + 3 ∧
     (writeStep NewBufferedPipe [1, 2, 3]).2.buf.length ≤ BUF_SIZE_LIMIT + 3) ∧
    ((writeStep atLimitPipe [0]).2.buf.length = BUF_SIZE_LIMIT + 1 ∧
     BUF_SIZE_LIMIT < (writeStep atLimitPipe [0]).2.buf.length) :=
  write_overshoot NewBufferedPipe [1, 2, 3] rfl (by decide)

/-- C1 counterexample: the two extracted ranges concatenate to 64
bytes, not 60, already on the all-zero 1024-byte buffer. -/
theorem handshake_extract_not_sixty :
    (extractEncrypted (List.replicate 1024 0)).length = 64 ∧
    (extractEncrypted (List.replicate 1024 0)).length ≠ 60 := by
  decide

/-- C1 (amended): on the 1024-byte read buffer, the ranges [6,38) and
[84,116) are concatenated into a 64-byte blob; its first 12 bytes
(= `buf[6:18]`) are the AES-GCM nonce and its bytes [12,60)
(= `buf[18:38] ++ buf[84:112]`, 48 bytes) are the ciphertext-with-tag;
the blob's final 4 bytes are unused. -/
theorem handshake_extract_ranges (buf : List Nat) (hb : buf.length = 1024) :
    extractEncrypted buf = goSlice buf 6 38 ++ goSlice buf 84 116 ∧
    (extractEncrypted buf).length = 64 ∧
    extractNonce buf = goSlice buf 6 18 ∧
    (extractNonce buf).length = 12 ∧
    extractCiphertextWithTag buf = goSlice buf 18 38 ++ goSlice buf 84 112 ∧
    (extractCiphertextWithTag buf).length = 48 := by
  refine ⟨rfl, ?_, ?_, ?_, ?_, ?_⟩
  · simp [extractEncrypted, goSlice, hb]
  · simp [extractEncrypted, extractNonce, goSlice,
      List.take_append_eq_append_take, List.length_take, List.length_drop,
      hb, List.take_take]
  · simp [extractEncrypted, extractNonce, goSlice, List.length_take,
      List.length_drop, hb]
  · simp [extractEncrypted, extractCiphertextWithTag, goSlice,
      List.drop_append_eq_append_drop, List.take_append_eq_append_take,
      List.length_take, List.length_drop, hb, List.take_take,
      List.drop_take, List.drop_drop]
  · simp [extractEncrypted, extractCiphertextWithTag, goSlice,
      List.length_take, List.length_drop, hb]

/-- Witness for C1's amended theorem, on the all-zero 1024-byte
buffer. -/
theorem handshake_extract_ranges_witness :
    (List.replicate 1024 (0 : Nat)).length = 1024 ∧
    (extractNonce (List.replicate 1024 0)).length = 12 ∧
    (extractCiphertextWithTag (List.replicate 1024 0)).length = 48 :=
  ⟨by simp only [List.length_replicate],
   (handshake_extract_ranges _ (by simp only [List.length_replicate])).2.2.2.1,
   (handshake_extract_ranges _
     (by simp only [List.length_replicate])).2.2.2.2.2⟩

/-- C5: once decryption of the session key has succeeded, `Handshake`
performs two more reads; an error from either is returned as the
handshake's result even though the key was recovered, and only when
both succeed does it return the key with a nil error. -/
theorem handshake_post_key_reads
    (decrypt : List Nat → List Nat → Except GoError (List Nat))
    (buf sk : List Nat)
    (hdec : decrypt (extractNonce buf) (extractCiphertextWithTag buf) = .ok sk) :
    (∀ e r2, handshakeRecv decrypt (.ok buf) (.error e) r2 = .error e) ∧
    (∀ b1 e, handshakeRecv decrypt (.ok buf) (.ok b1) (.error e) = .error e) ∧
    (∀ b1 b2, handshakeRecv decrypt (.ok buf) (.ok b1) (.ok b2) =
      .ok (goCopy (List.replicate 32 0) sk)) := by
  refine ⟨fun e r2 => ?_, fun b1 e => ?_, fun b1 b2 => ?_⟩ <;>
    simp [handshakeRecv, hdec]

/-- Witness for C5: with a decryptor that accepts anything, an error on
the second read is surfaced. -/
theorem handshake_post_key_reads_witness :
    handshakeRecv (fun _ _ => .ok [9]) (.ok []) (.error .timeout) (.ok []) =
      .error .timeout :=
  (handshake_post_key_reads (fun _ _ => .ok [9]) [] [9] rfl).1 .timeout (.ok [])

/-- C6: the server name placed in the ClientHello fields equals
`authInfo.MockDomain`, except that a MockDomain case-insensitively
equal to `"random"` is replaced by the generated hostname. -/
theorem mockdomain_server_name (payload : AuthPayload) (ai : AuthInfo)
    (g : List Nat) :
    (equalFold ai.mockDomain randomLiteral = true →
      (handshakeFields payload ai g).serverName = g) ∧
    (equalFold ai.mockDomain randomLiteral = false →
      (handshakeFields payload ai g).serverName = ai.mockDomain) := by
  constructor <;> intro h <;> simp [handshakeFields, h]

/-- Witness for C6: MockDomain `"RaNdOm"` is replaced by the generated
name; MockDomain `"ex"` is kept. -/
theorem mockdomain_server_name_witness :
    (handshakeFields ⟨[1], [2]⟩ ⟨[82, 97, 78, 100, 79, 109]⟩ [120]).serverName
      = [120] ∧
    (handshakeFields ⟨[1], [2]⟩ ⟨[101, 120]⟩ [120]).serverName = [101, 120] :=
  ⟨(mockdomain_server_name ⟨[1], [2]⟩ ⟨[82, 97, 78, 100, 79, 109]⟩ [120]).1
      (by decide),
   (mockdomain_server_name ⟨[1], [2]⟩ ⟨[101, 120]⟩ [120]).2 (by decide)⟩

/-- C7: every name `randomServerName` can return is a label of 3 to 12
lowercase ASCII letters (bytes 97–122), a dot (byte 46), and a
top-level domain from the fixed list. -/
theorem random_server_name_shape (sizeOracle : Nat) (charOracle : Nat → Nat)
    (tldOracle : Nat) :
    ∃ label tld,
      randomServerName sizeOracle charOracle tldOracle = label ++ 46 :: tld ∧
      3 ≤ label.length ∧ label.length ≤ 12 ∧
      (∀ b ∈ label, 97 ≤ b ∧ b ≤ 122) ∧
      tld ∈ topLevelDomains := by
  refine ⟨(List.range (3 + randInt sizeOracle 10)).map
      (fun i => 97 + randInt (charOracle i) 26),
    randItem tldOracle topLevelDomains, rfl, ?_, ?_, ?_, ?_⟩
  · simp
  · have := Nat.mod_lt sizeOracle (show 0 < 10 by norm_num)
    simp [randInt]
    omega
  · intro b hb
    simp only [List.mem_map, List.mem_range] at hb
    obtain ⟨i, _, rfl⟩ := hb
    have := Nat.mod_lt (charOracle i) (show 0 < 26 by norm_num)
    unfold randInt
    omega
  · have hlt : randInt tldOracle topLevelDomains.length <
        topLevelDomains.length :=
      Nat.mod_lt _ (by simp [topLevelDomains])
    unfold randItem
    rw [List.getD_eq_getElem topLevelDomains [] hlt]
    exact List.getElem_mem hlt

/-- The inner scan keeps its accumulator when the list has no X25519
entry. -/
theorem lastX25519Aux_none (l : List KeyShare) (hl : lastIdxX25519 l = none) :
    ∀ j acc, lastX25519Aux j acc l = acc := by
  induction l with
  | nil => intro j acc; rfl
  | cons s rest ih =>
    intro j acc
    rw [lastIdxX25519] at hl
    cases hr : lastIdxX25519 rest with
    | some k => rw [hr] at hl; simp at hl
    | none =>
      rw [hr] at hl
      by_cases hg : s.group = X25519
      · simp [hg] at hl
      · rw [lastX25519Aux, if_neg hg]
        exact ih hr (j + 1) acc

/-- The inner scan returns the position of the last X25519 entry
(offset by the scan's starting position), whatever the accumulator. -/
theorem lastX25519Aux_some (l : List KeyShare) : ∀ k, lastIdxX25519 l = some k →
    ∀ j acc, lastX25519Aux j acc l = j + k := by
  induction l with
  | nil => intro k h; simp [lastIdxX25519] at h
  | cons s rest ih =>
    intro k h j acc
    rw [lastIdxX25519] at h
    cases hr : lastIdxX25519 rest with
    | some k' =>
      rw [hr] at h
      obtain rfl : k = k' + 1 := by simpa using h.symm
      rw [lastX25519Aux, ih k' hr]
      omega
    | none =>
      rw [hr] at h
      by_cases hg : s.group = X25519
      · obtain rfl : k = 0 := by simpa [hg] using h.symm
        rw [lastX25519Aux, if_pos hg, lastX25519Aux_none rest hr]
        omega
      · simp [hg] at h

/-- The outer scan distributes over list concatenation. -/
theorem scanKeyShareAux_append (l₁ l₂ : List TLSExtension) : ∀ i acc,
    scanKeyShareAux i acc (l₁ ++ l₂) =
      scanKeyShareAux (i + l₁.length) (scanKeyShareAux i acc l₁) l₂ := by
  induction l₁ with
  | nil => intro i acc; simp [scanKeyShareAux]
  | cons e rest ih =>
    intro i acc
    cases e with
    | keyShare shares =>
      simp only [List.cons_append, scanKeyShareAux, List.append_eq,
        List.length_cons, ih]
      rw [show i + (rest.length + 1) = i + 1 + rest.length from by omega]
    | other t =>
      simp only [List.cons_append, scanKeyShareAux, List.append_eq,
        List.length_cons, ih]
      rw [show i + (rest.length + 1) = i + 1 + rest.length from by omega]

/-- The outer scan ignores extensions that are not key-share
extensions. -/
theorem scanKeyShareAux_no_keyshare (l : List TLSExtension)
    (h : ∀ e ∈ l, e.isKeyShare = false) : ∀ i acc,
    scanKeyShareAux i acc l = acc := by
  induction l with
  | nil => intro i acc; rfl
  | cons e rest ih =>
    intro i acc
    cases e with
    | keyShare shares =>
      exact absurd (h _ (List.mem_cons_self _ _)) (by simp [TLSExtension.isKeyShare])
    | other t =>
      rw [scanKeyShareAux]
      exact ih (fun e he => h e (List.mem_cons_of_mem _ he)) _ _

/-- A key-share list containing an X25519 entry has a last X25519
position. -/
theorem lastIdxX25519_ne_none (l : List KeyShare) (s : KeyShare) (hs : s ∈ l)
    (hg : s.group = X25519) : lastIdxX25519 l ≠ none := by
  induction l with
  | nil => cases hs
  | cons r rest ih =>
    rw [lastIdxX25519]
    cases hr : lastIdxX25519 rest with
    | some k => simp
    | none =>
      rcases List.mem_cons.mp hs with rfl | hmem
      · simp [hg]
      · exact absurd hr (ih hmem)

/-- `lastIdxX25519` returns the position of an X25519 entry, and no
later entry is X25519. -/
theorem lastIdxX25519_spec (l : List KeyShare) : ∀ j, lastIdxX25519 l = some j →
    ∃ s, l.get? j = some s ∧ s.group = X25519 ∧
      ∀ j' s', l.get? j' = some s' → s'.group = X25519 → j' ≤ j := by
  induction l with
  | nil => intro j h; simp [lastIdxX25519] at h
  | cons s rest ih =>
    intro j h
    rw [lastIdxX25519] at h
    cases hr : lastIdxX25519 rest with
    | some k =>
      rw [hr] at h
      obtain rfl : j = k + 1 := by
        simpa using h.symm
      obtain ⟨t, ht, htg, hlast⟩ := ih k hr
      refine ⟨t, by simpa using ht, htg, ?_⟩
      intro j' s' hj' hg'
      cases j' with
      | zero => omega
      | succ j'' =>
        have := hlast j'' s' (by simpa using hj') hg'
        omega
    | none =>
      rw [hr] at h
      by_cases hg : s.group = X25519
      · simp only [hg, if_true] at h
        obtain rfl : j = 0 := by simpa using h.symm
        refine ⟨s, rfl, hg, ?_⟩
        intro j' s' hj' hg'
        cases j' with
        | zero => omega
        | succ j'' =>
          exfalso
          have hmem : s' ∈ rest := List.get?_mem (by simpa using hj')
          exact lastIdxX25519_ne_none rest s' hmem hg' hr
      · simp [hg] at h

/-- C8: the key-share lookup scans every extension and every key-share
entry, landing on the last `KeyShareExtension` (position of the final
one when the tail `post` holds no further key-share extension) and on
the last X25519 entry inside it (`lastIdxX25519`, whose returned
position is proved to hold an X25519 entry with none later); and when
the extension list holds no `KeyShareExtension` at all, the scan leaves
`extIndex = 0`, so the overwrite's type assertion on `Extensions[0]`
(or the empty-list index) panics instead of returning an error. -/
theorem keyshare_scan_semantics :
    (∀ (exts : List TLSExtension) (d : List Nat),
      (∀ e ∈ exts, e.isKeyShare = false) →
      scanKeyShare exts = (0, 0) ∧ overwriteKeyShare exts d = none) ∧
    (∀ (pre post : List TLSExtension) (shares : List KeyShare) (j : Nat),
      (∀ e ∈ post, e.isKeyShare = false) →
      lastIdxX25519 shares = some j →
      scanKeyShare (pre ++ .keyShare shares :: post) = (pre.length, j)) ∧
    (∀ (shares : List KeyShare) (j : Nat), lastIdxX25519 shares = some j →
      ∃ s, shares.get? j = some s ∧ s.group = X25519 ∧
        ∀ j' s', shares.get? j' = some s' → s'.group = X25519 → j' ≤ j) := by
  refine ⟨?_, ?_, fun shares j hj => lastIdxX25519_spec shares j hj⟩
  · intro exts d h
    have hscan : scanKeyShare exts = (0, 0) :=
      scanKeyShareAux_no_keyshare exts h 0 (0, 0)
    refine ⟨hscan, ?_⟩
    cases exts with
    | nil => rfl
    | cons e rest =>
      have he : e.isKeyShare = false := h e (List.mem_cons_self _ _)
      cases e with
      | keyShare shares => simp [TLSExtension.isKeyShare] at he
      | other t => simp [overwriteKeyShare, hscan]
  · intro pre post shares j hpost hj
    rw [scanKeyShare, scanKeyShareAux_append, scanKeyShareAux,
      scanKeyShareAux_no_keyshare post hpost,
      lastX25519Aux_some shares j hj]
    simp

/-- Witness for C8: on `[other 7]` the scan stays at `(0, 0)` and the
overwrite panics; on `[other 7, keyShare [⟨23,[1]⟩, ⟨29,[2]⟩, ⟨29,[3]⟩]]`
the scan lands on extension 1 and key share 2 (the last X25519). -/
theorem keyshare_scan_semantics_witness :
    (scanKeyShare [.other 7] = (0, 0) ∧
      overwriteKeyShare [.other 7] [0] = none) ∧
    scanKeyShare
        [.other 7, .keyShare [⟨23, [1]⟩, ⟨29, [2]⟩, ⟨29, [3]⟩]] = (1, 2) :=
  ⟨keyshare_scan_semantics.1 [.other 7] [0] (by decide),
   keyshare_scan_semantics.2.1 [.other 7] []
     [⟨23, [1]⟩, ⟨29, [2]⟩, ⟨29, [3]⟩] 2 (by decide) (by decide)⟩

end Cloak
